import Mathlib

/-!
Verification of the macromania monorepo rendering macros
(macromania_pseudocode, macromania_structuredcode, macromania_html).

The macros run on an external macro-expansion engine that supplies,
per rendering pass: scoped mutable state, pre/post lifecycle hooks
around a subtree, deferred ("impure") computed fragments, and halting
with a diagnostic.  We embed a rendering computation as a function
from the configuration and the mutable state to either a halt or the
final state together with the emitted output, mirroring the engine's
single left-to-right pass.  Output is a flat stream of HTML events
(text, opening tag, closing tag, void tag); an element that wraps
children renders as its opening tag, then the children's events, then
its closing tag.
-/

/-- JavaScript's `%` operator on integers: remainder with the sign of
the dividend (truncated division), e.g. `jsRem (-1) 3 = -1`. -/
def jsRem (a b : Int) : Int := Int.tmod a b

/-- One output event of a rendering pass: raw text, the opening tag of
an element (with its rendered attributes), the closing tag of an
element, or a void element (which never has content). -/
inductive Ev where
  | text (s : String)
  | openTag (name : String) (attrs : List (String × String))
  | closeTag (name : String)
  | voidTag (name : String) (attrs : List (String × String))
deriving DecidableEq

/-- The `DelimiterStyle` type of macromania_structuredcode:
`c` renders C-style delimiters, `python` omits curly braces,
`ruby` uses keywords instead of punctuation. -/
inductive DelimiterStyle where
  | c
  | python
  | ruby
deriving DecidableEq

/-- The `StructuredcodeConfig` record (defaults: 3 colors, python style). -/
structure StructuredcodeConfig where
  colorsOfTheRainbow : Int := 3
  delimiterStyle : DelimiterStyle := .python

/-- The `PseudocodeConfig` record (only the field the embedded macros read). -/
structure PseudocodeConfig where
  lineNumbering : Bool := false

/-- The combined configuration of a rendering pass. -/
structure Config where
  structuredcode : StructuredcodeConfig := {}
  pseudocode : PseudocodeConfig := {}

/-- The `PeudocodeState` substate of macromania_pseudocode
(the typo in the name is the source's). -/
structure PeudocodeState where
  lineNumber : Int := 1
  indentation : Int := 0
  showLineNumbers : Bool := false
  n : String := ""
deriving DecidableEq

/-- The `StructuredcodeState` substate of macromania_structuredcode. -/
structure StructuredcodeState where
  rainbowCount : Int := 0
deriving DecidableEq

/-- The mutable state of a rendering pass: both substates. -/
structure RenderState where
  pseudo : PeudocodeState := {}
  strc : StructuredcodeState := {}
deriving DecidableEq

/-- Modelled from the spec: a rendering computation on the external
engine.  It reads the configuration, threads the scoped mutable state
through a single pass, and either halts with a diagnostic (`Except.error`)
or returns the final state and the emitted output events. -/
def Render : Type := Config → RenderState → Except Unit (RenderState × List Ev)

/-- Modelled from the spec: an expression that emits a raw text fragment. -/
def textR (s : String) : Render := fun _ st => .ok (st, [.text s])

/-- Modelled from the spec: the empty expression (an empty JSX fragment). -/
def emptyR : Render := fun _ st => .ok (st, [])

/-- Modelled from the spec: sequencing of two expressions; the state of
the first is threaded into the second, outputs are concatenated. -/
def seqR (a b : Render) : Render := fun cfg st => do
  let (st1, o1) ← a cfg st
  let (st2, o2) ← b cfg st1
  .ok (st2, o1 ++ o2)

/-- Modelled from the spec: sequencing of a list of expressions
(a JSX fragment with several children). -/
def seqList : List Render → Render
  | [] => emptyR
  | e :: es => seqR e (seqList es)

/-- Modelled from the spec: the engine's `impure` macro.  Its function
runs at the macro's position in the pass; it may read and mutate the
state, may halt, and returns the expression to expand in its place. -/
def impureR (f : Config → RenderState → Except Unit (RenderState × Render)) : Render :=
  fun cfg st => do
    let (st1, e) ← f cfg st
    e cfg st1

/-- Modelled from the spec: the engine's `lifecycle` macro.  The `pre`
hook mutates the state before the children expand, the `post` hook
after them. -/
def lifecycleR (pre post : Config → RenderState → RenderState) (children : Render) : Render :=
  fun cfg st => do
    let (st1, out) ← children cfg (pre cfg st)
    .ok (post cfg st1, out)

/-- Modelled from the spec: a non-void element wrapping some children:
its opening tag, the children's events, its closing tag. -/
def elemR (name : String) (attrs : List (String × String)) (children : Render) : Render :=
  fun cfg st => do
    let (st1, out) ← children cfg st
    .ok (st1, .openTag name attrs :: out ++ [.closeTag name])

/-- Modelled from the spec: the `Span` HTML wrapper with a list-valued
`clazz` prop; like every wrapper it renders exactly its one element.
Each class of the list is kept as its own `class` attribute entry. -/
def SpanR (clazz : List String) (children : Render) : Render :=
  elemR "span" (clazz.map fun c => ("class", c)) children

/-- Modelled from the spec: the `Div` HTML wrapper, given its already
rendered attributes. -/
def DivR (attrs : List (String × String)) (children : Render) : Render :=
  elemR "div" attrs children

/-- JavaScript truthiness of an optional boolean prop:
`undefined` and `false` are falsy. -/
def truthy : Option Bool → Bool
  | none => false
  | some b => b

/-- The props of the `Delimiters` macro: the opening and closing
delimiter and the `noRainbow` flag. -/
structure DelimiterProps where
  delims : Render × Render
  noRainbow : Option Bool := none

/-- The `Delimiters` macro.  With `noRainbow` it renders plain
`open`/`close` spans around the children.  Otherwise a lifecycle pre
hook sets `rainbowCount` to `(rainbowCount + 1) % colorsOfTheRainbow`,
an impure fragment renders the spans with class `rb` followed by the
current `rainbowCount`, and the post hook sets `rainbowCount` to
`(rainbowCount - 1) % colorsOfTheRainbow` (JavaScript `%` semantics). -/
def Delimiters (p : DelimiterProps) (children : Render) : Render :=
  if truthy p.noRainbow then
    seqList [SpanR ["open"] p.delims.1, children, SpanR ["close"] p.delims.2]
  else
    lifecycleR
      (fun cfg st =>
        { st with strc := { st.strc with
            rainbowCount := jsRem (st.strc.rainbowCount + 1)
              cfg.structuredcode.colorsOfTheRainbow } })
      (fun cfg st =>
        { st with strc := { st.strc with
            rainbowCount := jsRem (st.strc.rainbowCount - 1)
              cfg.structuredcode.colorsOfTheRainbow } })
      (impureR fun _ st =>
        let clazz := "rb" ++ toString st.strc.rainbowCount
        .ok (st, seqList
          [SpanR [clazz, "open"] p.delims.1,
           children,
           SpanR [clazz, "close"] p.delims.2]))

/-- Collect, in emission order, the `class` attribute of every opening
`span` tag in an output stream. -/
def spanClasses : List Ev → List String
  | [] => []
  | .openTag name attrs :: rest =>
      (if name = "span" then attrs.filterMap
        (fun a => if a.1 = "class" then some a.2 else none)
       else []) ++ spanClasses rest
  | _ :: rest => spanClasses rest

/-- Collect, in emission order, every raw text fragment of an output stream. -/
def textsOf : List Ev → List String
  | [] => []
  | .text s :: rest => s :: textsOf rest
  | _ :: rest => textsOf rest

/-- The final `rainbowCount` of a rendering computation, unless it halts. -/
def finalRainbow (e : Render) (cfg : Config) (st : RenderState) : Except Unit Int :=
  (e cfg st).map fun r => r.1.strc.rainbowCount

/-- The emitted output of a rendering computation, unless it halts. -/
def outputOf (e : Render) (cfg : Config) (st : RenderState) : Except Unit (List Ev) :=
  (e cfg st).map fun r => r.2

/-- The span classes emitted by a rendering computation, unless it halts. -/
def classesOf (e : Render) (cfg : Config) (st : RenderState) : Except Unit (List String) :=
  (e cfg st).map fun r => spanClasses r.2

/-- A probe expression: emits the current `rainbowCount` as text,
without changing any state. -/
def rainbowProbe : Render :=
  impureR fun _ st => .ok (st, textR ("probe:" ++ toString st.strc.rainbowCount))

/-- Parenthesis delimiters, as plain text. -/
def parenDelims : DelimiterProps := { delims := (textR "(", textR ")") }

/-- A configuration with `colorsOfTheRainbow = 2`. -/
def cfgRainbow2 : Config := { structuredcode := { colorsOfTheRainbow := 2 } }

/-- A configuration with `colorsOfTheRainbow = 3` (the default count). -/
def cfgRainbow3 : Config := { structuredcode := { colorsOfTheRainbow := 3 } }

/-- A rainbowed `Delimiters` nested directly inside another one, with
probes recording `rainbowCount` right before and right after the inner
macro runs. -/
def probedNesting : Render :=
  Delimiters parenDelims
    (seqList [rainbowProbe, Delimiters parenDelims emptyR, rainbowProbe])

/-- A balanced nesting of rainbowed `Delimiters`: an outer pair
containing a first child pair (which itself contains a third pair)
followed by a sibling pair. -/
def nestedSibling : Render :=
  Delimiters parenDelims
    (seqList
      [Delimiters parenDelims (Delimiters parenDelims emptyR),
       Delimiters parenDelims emptyR])

/-- The class lists of the six delimiter spans that a
`colorsOfTheRainbow = 3` configuration is supposed to cycle through
according to the claim. -/
def allowedRainbowClasses3 : List (List String) :=
  [["rb0", "open"], ["rb1", "open"], ["rb2", "open"],
   ["rb0", "close"], ["rb1", "close"], ["rb2", "close"]]

/-- The class list of each emitted `span`, in emission order. -/
def spanClassLists : List Ev → List (List String)
  | [] => []
  | .openTag name attrs :: rest =>
      (if name = "span" then
        [attrs.filterMap (fun a => if a.1 = "class" then some a.2 else none)]
       else []) ++ spanClassLists rest
  | _ :: rest => spanClassLists rest

/-- The global-attribute props of the macromania_html tag wrappers
(the fields the embedded macros use). -/
structure TagProps where
  id : Option String := none
  clazz : Option String := none

/-- Modelled from the spec: `RenderGlobalAttributes` of
macromania_html (its global.tsx is not under src/): renders the
global attributes that are present on the props. -/
def RenderGlobalAttributes (props : TagProps) : List (String × String) :=
  (match props.id with | some v => [("id", v)] | none => []) ++
  (match props.clazz with | some v => [("class", v)] | none => [])

/-- Modelled from the spec: `RenderNonVoidElement` of macromania_html
(its renderUtils.tsx is not under src/): renders the element's opening
tag with the given attributes, then the children, then its closing tag. -/
def RenderNonVoidElement (name : String) (attrs : List (String × String))
    (children : Render) : Render :=
  elemR name attrs children

/-- Modelled from the spec: `RenderVoidElement` of macromania_html
(its renderUtils.tsx is not under src/): renders the void element with
the given attributes and no content. -/
def RenderVoidElement (name : String) (attrs : List (String × String)) : Render :=
  fun _ st => .ok (st, [.voidTag name attrs])

/-- The `Code` tag wrapper: the non-void `code` element with the
rendered global attributes of its props, wrapping its children. -/
def Code (props : TagProps) (children : Render) : Render :=
  RenderNonVoidElement "code" (RenderGlobalAttributes props) children

/-- The `Br` tag wrapper: the void `br` element with the rendered
global attributes of its props. -/
def Br (attrs : TagProps) : Render :=
  RenderVoidElement "br" (RenderGlobalAttributes attrs)

/-- An element of a `many` list in the `Lines` type: a single line or
an inclusive range of lines (the type-level union
`number | [number, number]`). -/
inductive LinesItem where
  | num (n : Int)
  | range (lo hi : Int)
deriving DecidableEq

/-- The `Lines` type: a single line, an inclusive range of lines, or a
sequence of the former two. -/
inductive Lines where
  | num (n : Int)
  | range (lo hi : Int)
  | many (items : List LinesItem)
deriving DecidableEq

/-- The single-line and range branches of `linesValidateAndFindFirst`,
as reached through its recursive call on the elements of a `many` list
(such an element can never itself be a `many` list). -/
def vffItem : LinesItem → Except Unit Int
  | .num n => .ok n
  | .range lo hi => if lo > hi then .error () else .ok lo

/-- One step of the `Math.min` fold of `linesValidateAndFindFirst`;
`none` models the JavaScript `Infinity` starting value. -/
def optMin : Option Int → Int → Int
  | none, f => f
  | some m, f => min m f

/-- The loop of the `many` branch of `linesValidateAndFindFirst`:
validate each element and fold the minimum of their first lines. -/
def vffMany : List LinesItem → Option Int → Except Unit Int
  | [], acc => .ok (acc.getD 0)
  | it :: rest, acc => do
      let f ← vffItem it
      vffMany rest (some (optMin acc f))

/-- `linesValidateAndFindFirst`: halts (`Except.error`) on a range
whose first line exceeds its second and on an empty `many` list;
otherwise returns the smallest line number mentioned. -/
def linesValidateAndFindFirst : Lines → Except Unit Int
  | .num n => .ok n
  | .range lo hi => if lo > hi then .error () else .ok lo
  | .many items => if items.isEmpty then .error () else vffMany items none

/-- The single-line and range branches of `encodeLines`, as reached
through its recursive call on the elements of a `many` list. -/
def encodeItem : LinesItem → String
  | .num n => toString n
  | .range lo hi => toString lo ++ "b" ++ toString hi

/-- `encodeLines`: encode lines as a string usable as a url parameter;
a number as its decimal representation, a range as the two decimals
separated by `b`, a `many` list as its encoded elements joined by `a`. -/
def encodeLines : Lines → String
  | .num n => toString n
  | .range lo hi => toString lo ++ "b" ++ toString hi
  | .many items => String.intercalate "a" (items.map encodeItem)

/-- `lineId`: the html id of a line of code. -/
def lineId (n : String) (line : Int) : String := n ++ "L" ++ toString line

/-- The props of the `RefLoc` macro. -/
structure RefLocProps where
  n : String
  lines : Lines
  noPreview : Option Bool := none

/-- The `RefLoc` macro: validates its `lines` prop (halting on invalid
input), then renders a DefRef reference (the external `R` macro,
modelled as an `R` element) whose replacement id is the id of the first
referenced line, carrying the encoded lines as query parameter and
extra data. -/
def RefLoc (p : RefLocProps) (children : Render) : Render :=
  impureR fun _ st =>
    match linesValidateAndFindFirst p.lines with
    | .error e => .error e
    | .ok firstLine =>
        let encoded := encodeLines p.lines
        .ok (st, elemR "R"
          [("n", p.n), ("replacementId", lineId p.n firstLine),
           ("query-hlLines", encoded), ("query-hlPseudocode", p.n),
           ("data-hllines", encoded)]
          children)

/-- The `StartLoc` macro: renders the line's gutter (with the line
number and a self-reference), increments the `lineNumber` state by one,
and opens the line's content div with one indent div per level of the
`indentation` state. -/
def StartLoc : Render :=
  impureR fun _ st =>
    let m := st.pseudo.lineNumber
    let gutter :=
      DivR [("class", "locGutter"), ("id", lineId st.pseudo.n m),
            ("data-l", toString m), ("data-i", toString st.pseudo.indentation)]
        (seqList
          [DivR [("class", "lineNumber")]
            (RefLoc { n := st.pseudo.n, lines := .num m, noPreview := some true }
              (textR (toString m))),
           DivR [("class", "fold")] emptyR])
    let st1 := { st with pseudo := { st.pseudo with lineNumber := m + 1 } }
    let indents := List.replicate st.pseudo.indentation.toNat
      (DivR [("class", "indent")] (textR "&nbsp;"))
    .ok (st1, seqList ([gutter, textR "<div class=\"locContent\">"] ++ indents))

/-- The `EndLoc` macro: closes the content div opened by `StartLoc`. -/
def EndLoc : Render := textR "</div>"

/-- The `Loc` macro: a self-contained line of code. -/
def Loc (children : Render) : Render := seqList [StartLoc, children, EndLoc]

/-- The `SpliceLoc` macro: splices up a line, letting its children add
lines "inside". -/
def SpliceLoc (children : Render) : Render := seqList [EndLoc, children, StartLoc]

/-- The `Indent` macro: a lifecycle that increments the `indentation`
state by one before its children and decrements it by one after them. -/
def Indent (children : Render) : Render :=
  lifecycleR
    (fun _ st => { st with pseudo := { st.pseudo with
        indentation := st.pseudo.indentation + 1 } })
    (fun _ st => { st with pseudo := { st.pseudo with
        indentation := st.pseudo.indentation - 1 } })
    children

/-- Modelled from the spec: the engine's `omnomnom` macro evaluates its
children but swallows their output. -/
def omnomnomR (children : Render) : Render :=
  fun cfg st => (children cfg st).map fun r => (r.1, [])

/-- Modelled from the spec: the external DefRef `Def` macro registers a
definition; it contributes no output relevant to this development. -/
def DefR (n : String) : Render := fun _ st => .ok (st, [.voidTag "Def" [("n", n)]])

/-- Modelled from the spec: the external `PreviewScope` macro only
groups its children into a preview scope. -/
def PreviewScopeR (children : Render) : Render := children

/-- The props of the `Pseudocode` macro. -/
structure PseudocodeProps where
  n : String
  lineNumbering : Option Bool := none
  noLineNumberReset : Option Bool := none

/-- The `Pseudocode` macro: decides line numbering (prop, else config),
overwrites the `showLineNumbers` and `n` state fields, resets the
`lineNumber` state to 1 unless `noLineNumberReset` is truthy, and
renders its children inside a `code` element (wrapped in a preview
scope, after an invisible `Def` registration and the dependency
registration, which contributes no output). -/
def Pseudocode (p : PseudocodeProps) (children : Render) : Render :=
  impureR fun cfg st =>
    let doNumber := match p.lineNumbering with
      | none => cfg.pseudocode.lineNumbering
      | some b => b
    let st1 := { st with pseudo := { st.pseudo with showLineNumbers := doNumber } }
    let st2 := if truthy p.noLineNumberReset then st1
      else { st1 with pseudo := { st1.pseudo with lineNumber := 1 } }
    let st3 := { st2 with pseudo := { st2.pseudo with n := p.n } }
    .ok (st3, PreviewScopeR (seqList
      [omnomnomR (DefR p.n),
       emptyR,
       Code { id := some p.n,
              clazz := some ("pseudocode" ++
                (if doNumber then "" else " noLineNumbers")) }
         children]))

/-- JavaScript's `Array.prototype.join`: concatenate the strings with
the separator between consecutive elements; empty array gives "". -/
def jsJoin (sep : String) : List String → String
  | [] => ""
  | [s] => s
  | s :: rest => s ++ sep ++ jsJoin sep rest

/-- Reference definition, following the claim's words, of the encoding
of a `many` element: a single number as its decimal representation, a
range as the two decimals separated by the character `b`. -/
def specEncodeItem : LinesItem → String
  | .num n => toString n
  | .range lo hi => toString lo ++ "b" ++ toString hi

/-- Reference definition, following the claim's words, of `encodeLines`:
a single number encodes as its decimal representation, a range `[a, b]`
as the decimal of `a` and the decimal of `b` separated by the character
`b`, and a many-list as the encodings of its elements joined by the
character `a`.  It is total: no validation, never a halt. -/
def specEncodeLines : Lines → String
  | .num n => toString n
  | .range lo hi => toString lo ++ "b" ++ toString hi
  | .many items => jsJoin "a" (items.map specEncodeItem)

/-- The three events of one indentation div of a line of code. -/
def indentEv : List Ev :=
  [.openTag "div" [("class", "indent")], .text "&nbsp;", .closeTag "div"]

/-- The gutter and content-div-opening events emitted by one
`StartLoc` at line number `l` and indentation `i` inside block `n`. -/
def gutterEvents (n : String) (l i : Int) : List Ev :=
  [.openTag "div" [("class", "locGutter"), ("id", lineId n l),
     ("data-l", toString l), ("data-i", toString i)],
   .openTag "div" [("class", "lineNumber")],
   .openTag "R" [("n", n), ("replacementId", lineId n l),
     ("query-hlLines", toString l), ("query-hlPseudocode", n),
     ("data-hllines", toString l)],
   .text (toString l),
   .closeTag "R",
   .closeTag "div",
   .openTag "div" [("class", "fold")],
   .closeTag "div",
   .closeTag "div",
   .text "<div class=\"locContent\">"]

/-- The events emitted by one `StartLoc`: the gutter (with line number
and self-reference), the raw opening of the content div, and `i`
indent divs. -/
def startLocEvents (n : String) (l i : Int) : List Ev :=
  gutterEvents n l i ++ (List.replicate i.toNat indentEv).flatten

/-- Collect, in emission order, the values of the attribute `key` on
every `locGutter` div (the gutter emitted by `StartLoc`). -/
def locGutterAttr (key : String) : List Ev → List String
  | [] => []
  | .openTag name attrs :: rest =>
      (if name == "div" && attrs.contains ("class", "locGutter") then
        attrs.filterMap (fun a => if a.1 = key then some a.2 else none)
       else []) ++ locGutterAttr key rest
  | _ :: rest => locGutterAttr key rest

/-- The events of a list of plain-text lines rendered by consecutive
`Loc` macros, starting at line number `l` with indentation `i`. -/
def locsEvents (n : String) (i : Int) : Int → List String → List Ev
  | _, [] => []
  | l, t :: rest =>
      startLocEvents n l i ++ [.text t, .text "</div>"] ++ locsEvents n i (l + 1) rest

/-- The consecutive integers `l, l+1, ..., l+k-1`. -/
def consecutiveNums (l : Int) : Nat → List Int
  | 0 => []
  | k + 1 => l :: consecutiveNums (l + 1) k

/-- `k` nested `Indent` macros around an expression. -/
def nestIndents : Nat → Render → Render
  | 0, e => e
  | k + 1, e => Indent (nestIndents k e)

/-- The number of indentation divs in an output stream. -/
def indentDivCount : List Ev → Nat
  | [] => 0
  | .openTag name attrs :: rest =>
      (if name == "div" && attrs.contains ("class", "indent") then 1 else 0) +
        indentDivCount rest
  | _ :: rest => indentDivCount rest

/-- Following the claim's words: an element of a `many` list is invalid
when it is a range `[a, b]` with `a > b`. -/
def itemInvalid : LinesItem → Bool
  | .num _ => false
  | .range lo hi => decide (lo > hi)

/-- Following the claim's words: a `Lines` value is invalid when it
contains a range `[a, b]` with `a > b`, or is an empty many-list. -/
def linesInvalid : Lines → Bool
  | .num _ => false
  | .range lo hi => decide (lo > hi)
  | .many items => items.isEmpty || items.any itemInvalid

/-- The line numbers mentioned in a `many` element. -/
def itemMentioned : LinesItem → List Int
  | .num n => [n]
  | .range lo hi => [lo, hi]

/-- The line numbers mentioned anywhere in a `Lines` value. -/
def mentionedLines : Lines → List Int
  | .num n => [n]
  | .range lo hi => [lo, hi]
  | .many items => (items.map itemMentioned).flatten

/-- The minimum line number mentioned anywhere in a `Lines` value
(0 for the empty, invalid many-list). -/
def minMentioned (l : Lines) : Int :=
  match mentionedLines l with
  | [] => 0
  | x :: xs => xs.foldl min x

/-- The first line of a valid `many` element. -/
def itemFirst : LinesItem → Int
  | .num n => n
  | .range lo _ => lo

/-- Whether a rendering computation halts with a diagnostic. -/
def halts (r : Render) (cfg : Config) (st : RenderState) : Bool :=
  match r cfg st with
  | .error _ => true
  | .ok _ => false

/-- The `Deemph` macro: a span of class `deemph`. -/
def Deemph (children : Render) : Render := SpanR ["deemph"] children

/-- The props of the `Delimited` macro. -/
structure DelimitedProps where
  content : List Render
  multiline : Option Bool := none
  separator : Option Render := none
  c : Render × Render
  pythonSkip : Option Bool := none
  ruby : Option (Render × Render) := none
  noRainbow : Option Bool := none

/-- One slot of the `separatedContent` array of `Delimited`: the
element itself, followed by the deemphasized separator when one is
configured and the element is not last on a single line, with the
ruby-non-multiline trailing space otherwise when applicable. -/
def sepSlot (multiline rubyNonMulti : Bool) (sep : Option Render)
    (isLast : Bool) (e : Render) : Render :=
  match sep with
  | some s =>
      if multiline || !isLast then
        seqList [e, Deemph s, textR (if multiline then "" else " ")]
      else if rubyNonMulti then seqR e (textR " ") else e
  | none => if rubyNonMulti then seqR e (textR " ") else e

/-- The `separatedContent` loop of `Delimited`. -/
def separatedContent (multiline rubyNonMulti : Bool) (sep : Option Render) :
    List Render → List Render
  | [] => []
  | [e] => [sepSlot multiline rubyNonMulti sep true e]
  | e :: rest =>
      sepSlot multiline rubyNonMulti sep false e ::
        separatedContent multiline rubyNonMulti sep rest

/-- The `Delimited` macro: wraps its content in configurable
delimiters (resolved against the configured style), optionally
separated, optionally one line each; under python style a multiline
`pythonSkip` block omits the delimiters altogether. -/
def Delimited (p : DelimitedProps) : Render :=
  impureR fun cfg st =>
    let style := cfg.structuredcode.delimiterStyle
    let openD :=
      if style == DelimiterStyle.ruby then
        match p.ruby with
        | some rp => if truthy p.multiline then rp.1 else seqR rp.1 (textR " ")
        | none => p.c.1
      else p.c.1
    let closeD :=
      if style == DelimiterStyle.ruby then
        match p.ruby with
        | some rp => rp.2
        | none => p.c.2
      else p.c.2
    let noDelims := truthy p.multiline && (style == DelimiterStyle.python) &&
      truthy p.pythonSkip
    let rubyNonMulti := !truthy p.multiline && (style == DelimiterStyle.ruby) &&
      p.ruby.isSome
    let sc := separatedContent (truthy p.multiline) rubyNonMulti p.separator p.content
    let between :=
      if truthy p.multiline then SpliceLoc (Indent (seqList (sc.map Loc)))
      else seqList sc
    .ok (st,
      if noDelims then between
      else Delimiters { delims := (openD, closeD), noRainbow := p.noRainbow } between)

/-- Whether the output contains a span carrying the CSS class `c`. -/
def hasSpanClass (c : String) (out : List Ev) : Bool :=
  decide (c ∈ spanClasses out)

/-- A rendering computation that never halts and whose output's spans
all carry only the class `deemph` (delimiter-free content). -/
def SafeRender (r : Render) : Prop :=
  ∀ cfg st, ∃ st' out, r cfg st = .ok (st', out) ∧
    ∀ c ∈ spanClasses out, c = "deemph"

/-! ## Theorems -/

/-- C1: the claim says that running the pre hook of a rainbowed
`Delimiters` and, after its balanced children, the post hook leaves
`rainbowCount` exactly as it was before the pre hook, for any
configured `colorsOfTheRainbow >= 1`.  The code violates this: with
`colorsOfTheRainbow = 2`, starting from the engine's default state, the
enclosing `Delimiters`' pre hook sets `rainbowCount` to `1`; the inner
`Delimiters`' pre hook maps it to `(1 + 1) % 2 = 0` and its post hook
maps `0` to `(0 - 1) % 2 = -1` under JavaScript `%`, not back to `1`.
The probes inside this real execution read `1` right before the inner
macro and `-1` right after it. -/
theorem delimiters_post_does_not_restore_rainbowCount :
    (outputOf probedNesting cfgRainbow2 {}).map textsOf =
      .ok ["(", "probe:1", "(", ")", "probe:-1", ")"] ∧ (1 : Int) ≠ -1 := by
  constructor
  · rfl
  · decide

/-- C3: the claim says the delimiter pair at nesting depth `d` is
emitted with class `rb(d mod k)`, so the color index always lies in
`0 .. k-1`.  The code violates this: with `k = 3`, in the balanced
nesting `nestedSibling`, the sibling pair at depth 2 is emitted with
class `rb-1` (its pre hook runs on the state `-2` left behind by two
JavaScript-`%` post hooks), not `rb2`, and `rb-1` is outside the three
configured colors. -/
theorem rainbow_class_escapes_range :
    (outputOf nestedSibling cfgRainbow3 {}).map spanClassLists =
      .ok [["rb1", "open"], ["rb2", "open"], ["rb0", "open"], ["rb0", "close"],
        ["rb2", "close"], ["rb-1", "open"], ["rb-1", "close"], ["rb1", "close"]] ∧
    ¬ (∀ c ∈ [["rb1", "open"], ["rb2", "open"], ["rb0", "open"], ["rb0", "close"],
        ["rb2", "close"], ["rb-1", "open"], ["rb-1", "close"], ["rb1", "close"]],
        c ∈ allowedRainbowClasses3) := by
  constructor
  · rfl
  · decide

theorem intercalate_go_eq_jsJoin (sep : String) : ∀ (as : List String) (acc : String),
    String.intercalate.go acc sep as = acc ++ jsJoin sep (("" : String) :: as) := by
  intro as
  induction as with
  | nil => intro acc; simp [String.intercalate.go, jsJoin]
  | cons a rest ih =>
    intro acc
    simp only [String.intercalate.go]
    rw [ih]
    cases rest <;> simp [jsJoin, String.append_assoc]

theorem intercalate_eq_jsJoin (sep : String) (l : List String) :
    String.intercalate sep l = jsJoin sep l := by
  cases l with
  | nil => rfl
  | cons a as =>
    simp only [String.intercalate, intercalate_go_eq_jsJoin]
    cases as <;> simp [jsJoin, String.append_assoc]

/-- C10: `encodeLines` satisfies its reference definition on every
`Lines` value (in particular it is a total function, so it performs no
validation and never halts), and the empty many-list encodes as the
empty string. -/
theorem encodeLines_meets_reference :
    (∀ l : Lines, encodeLines l = specEncodeLines l) ∧
    encodeLines (.many []) = "" := by
  constructor
  · intro l
    cases l with
    | num n => rfl
    | range lo hi => rfl
    | many items =>
      show String.intercalate "a" (items.map encodeItem) = jsJoin "a" (items.map specEncodeItem)
      rw [intercalate_eq_jsJoin]
      have : items.map encodeItem = items.map specEncodeItem := by
        apply List.map_congr_left
        intro it _
        cases it <;> rfl
      rw [this]
  · rfl

/-- C7: for every props value, `Code` renders exactly the non-void
`code` element: its opening tag with the rendered global attributes of
the props, then exactly the children's output, then its closing tag;
and `Br` renders exactly the void `br` element with its rendered global
attributes and no content. -/
theorem code_and_br_render_one_element (props : TagProps) (children : Render)
    (cfg : Config) (st : RenderState) :
    Code props children cfg st =
      (children cfg st).map (fun r =>
        (r.1, .openTag "code" (RenderGlobalAttributes props) :: r.2 ++
          [.closeTag "code"])) ∧
    Br props cfg st = .ok (st, [.voidTag "br" (RenderGlobalAttributes props)]) := by
  constructor
  · cases h : children cfg st with
    | error e =>
      simp only [Code, RenderNonVoidElement, elemR, h, Except.map]
      rfl
    | ok r =>
      simp only [Code, RenderNonVoidElement, elemR, h, Except.map]
      rfl
  · rfl

/-! ## Generic evaluation lemmas for the embedding monad -/

theorem bindOkEqMap {A B : Type} (x : Except Unit A) (f : A → B) :
    x >>= (fun a => Except.ok (f a)) = Except.map f x := by
  cases x <;> rfl

theorem okBind {A B : Type} (a : A) (f : A → Except Unit B) :
    (Except.ok a : Except Unit A) >>= f = f a := rfl

theorem errorBind {A B : Type} (e : Unit) (f : A → Except Unit B) :
    (Except.error e : Except Unit A) >>= f = (Except.error e : Except Unit B) := rfl

theorem bindAssoc {A B C : Type} (x : Except Unit A) (f : A → Except Unit B)
    (g : B → Except Unit C) :
    (x >>= f) >>= g = x >>= (fun a => f a >>= g) := by
  cases x <;> rfl

/-- C8: when `noLineNumberReset` is true, `Pseudocode` leaves the
`lineNumber` state field untouched (the children start numbering where
the previous block left off), while it still overwrites the
`showLineNumbers` and `n` fields on every invocation; the children run
in exactly the state spelled out below, whose `lineNumber` and
`indentation` are the incoming ones. -/
theorem pseudocode_noReset_keeps_lineNumber (p : PseudocodeProps)
    (children : Render) (cfg : Config) (st : RenderState)
    (h : p.noLineNumberReset = some true) :
    Pseudocode p children cfg st =
      (children cfg
        { st with pseudo :=
            { lineNumber := st.pseudo.lineNumber
              indentation := st.pseudo.indentation
              showLineNumbers :=
                match p.lineNumbering with
                | none => cfg.pseudocode.lineNumbering
                | some b => b
              n := p.n } }).map
        (fun r =>
          (r.1, .openTag "code"
              [("id", p.n),
               ("class", "pseudocode" ++
                 (if (match p.lineNumbering with
                      | none => cfg.pseudocode.lineNumbering
                      | some b => b) then "" else " noLineNumbers"))] ::
            r.2 ++ [.closeTag "code"])) := by
  obtain ⟨n, ln, nr⟩ := p
  simp only at h
  subst h
  obtain ⟨⟨l, i, sh, n0⟩, ⟨rb⟩⟩ := st
  cases ln <;>
    simp [Pseudocode, impureR, truthy, PreviewScopeR, seqList, seqR, omnomnomR,
      DefR, emptyR, Code, RenderNonVoidElement, RenderGlobalAttributes, elemR,
      Except.bind, okBind, errorBind, bindAssoc] <;>
    exact bindOkEqMap _ _

/-- Witness for C8 at a concrete input: an incoming `lineNumber` of 7
is kept, `showLineNumbers` and `n` are overwritten. -/
theorem pseudocode_noReset_keeps_lineNumber_witness :
    Pseudocode ⟨"blk", none, some true⟩ (textR "x") {}
        { pseudo := { lineNumber := 7 } } =
      .ok ({ pseudo :=
               { lineNumber := 7, indentation := 0,
                 showLineNumbers := false, n := "blk" } },
        [.openTag "code" [("id", "blk"), ("class", "pseudocode noLineNumbers")],
         .text "x", .closeTag "code"]) := by
  have h := pseudocode_noReset_keeps_lineNumber ⟨"blk", none, some true⟩
    (textR "x") {} { pseudo := { lineNumber := 7 } } rfl
  rw [h]
  rfl

theorem seqList_replicate (d : Render) (es : List Ev)
    (hd : ∀ cfg st, d cfg st = .ok (st, es)) (k : Nat) (cfg : Config)
    (st : RenderState) :
    seqList (List.replicate k d) cfg st = .ok (st, (List.replicate k es).flatten) := by
  induction k with
  | zero => rfl
  | succ k ih =>
    show seqR d (seqList (List.replicate k d)) cfg st = _
    simp [seqR, hd, ih, okBind, List.replicate_succ, Except.bind]

theorem startLoc_run (cfg : Config) (l i : Int) (sh : Bool) (n : String)
    (rb : Int) :
    StartLoc cfg ⟨⟨l, i, sh, n⟩, ⟨rb⟩⟩ =
      .ok (⟨⟨l + 1, i, sh, n⟩, ⟨rb⟩⟩, startLocEvents n l i) := by
  have hrep := seqList_replicate (DivR [("class", "indent")] (textR "&nbsp;"))
    indentEv (fun _ _ => rfl) i.toNat cfg ⟨⟨l + 1, i, sh, n⟩, ⟨rb⟩⟩
  simp only [DivR] at hrep
  simp [StartLoc, impureR, seqList, seqR, DivR, elemR, RefLoc,
    linesValidateAndFindFirst, encodeLines, textR, emptyR, okBind, errorBind,
    bindAssoc, Except.bind, hrep, startLocEvents, gutterEvents]

/-- C2: the claim says any two invocations of a macro with identical
props under identical configuration render identical output, regardless
of mutable state left behind by earlier invocations.  The code violates
this: `StartLoc` (which takes no props at all) renders the line number
from the mutable state.  Invoked in the default configuration from the
state `lineNumber = 1`, it emits the line number text `1`; invoked
again from the state it itself left behind (`lineNumber = 2`), it emits
`2`. -/
theorem startLoc_not_stateless_per_call :
    (StartLoc {} { pseudo := { n := "blk" } }).map (fun r => r.1) =
      .ok { pseudo := { lineNumber := 2, n := "blk" } } ∧
    (outputOf StartLoc {} { pseudo := { n := "blk" } }).map textsOf =
      .ok ["1", "<div class=\"locContent\">"] ∧
    (outputOf StartLoc {} { pseudo := { lineNumber := 2, n := "blk" } }).map textsOf =
      .ok ["2", "<div class=\"locContent\">"] ∧
    (["1", "<div class=\"locContent\">"] : List String) ≠
      ["2", "<div class=\"locContent\">"] := by
  refine ⟨rfl, rfl, rfl, by decide⟩

/-- C2 amended: rendering is deterministic as a function of props,
configuration and the mutable rendering state; a macro's output depends
only on the state fields it reads.  For `StartLoc` those are `n`,
`lineNumber` and `indentation`: two invocations agreeing on them render
identical output even under different configurations and different
values of every other state field, and both advance `lineNumber` to the
same value. -/
theorem startLoc_depends_only_on_read_state (cfg cfg' : Config) (l i : Int)
    (sh sh' : Bool) (n : String) (rb rb' : Int) :
    outputOf StartLoc cfg ⟨⟨l, i, sh, n⟩, ⟨rb⟩⟩ =
      outputOf StartLoc cfg' ⟨⟨l, i, sh', n⟩, ⟨rb'⟩⟩ ∧
    (StartLoc cfg ⟨⟨l, i, sh, n⟩, ⟨rb⟩⟩).map (fun r => r.1.pseudo.lineNumber) =
      .ok (l + 1) := by
  constructor
  · show (StartLoc cfg _).map _ = (StartLoc cfg' _).map _
    rw [startLoc_run, startLoc_run]
    rfl
  · rw [startLoc_run]
    rfl

/-! ## Lines of code: evaluation lemmas and gutter observers -/

theorem loc_text_run (cfg : Config) (l i : Int) (sh : Bool) (n : String)
    (rb : Int) (t : String) :
    Loc (textR t) cfg ⟨⟨l, i, sh, n⟩, ⟨rb⟩⟩ =
      .ok (⟨⟨l + 1, i, sh, n⟩, ⟨rb⟩⟩,
        startLocEvents n l i ++ [.text t, .text "</div>"]) := by
  simp [Loc, seqList, seqR, startLoc_run, textR, EndLoc, emptyR, okBind,
    errorBind, bindAssoc, Except.bind]

theorem locGutterAttr_append (key : String) (a b : List Ev) :
    locGutterAttr key (a ++ b) = locGutterAttr key a ++ locGutterAttr key b := by
  induction a with
  | nil => rfl
  | cons ev rest ih => cases ev <;> simp [locGutterAttr, ih, List.append_assoc]

theorem locGutterAttr_indents (key : String) (k : Nat) :
    locGutterAttr key ((List.replicate k indentEv).flatten) = [] := by
  induction k with
  | zero => rfl
  | succ k ih =>
    rw [List.replicate_succ, List.flatten_cons, locGutterAttr_append, ih]
    rfl

theorem locGutterAttr_startLocEvents (n : String) (l i : Int) :
    locGutterAttr "data-l" (startLocEvents n l i) = [toString l] ∧
    locGutterAttr "id" (startLocEvents n l i) = [lineId n l] ∧
    locGutterAttr "data-i" (startLocEvents n l i) = [toString i] := by
  refine ⟨?_, ?_, ?_⟩ <;>
    · rw [startLocEvents, locGutterAttr_append, locGutterAttr_indents]
      rfl

theorem locs_run (cfg : Config) (i : Int) (sh : Bool) (n : String) (rb : Int)
    (texts : List String) : ∀ l : Int,
    seqList (texts.map fun t => Loc (textR t)) cfg ⟨⟨l, i, sh, n⟩, ⟨rb⟩⟩ =
      .ok (⟨⟨l + texts.length, i, sh, n⟩, ⟨rb⟩⟩, locsEvents n i l texts) := by
  induction texts with
  | nil => intro l; simp [seqList, emptyR, locsEvents]
  | cons t rest ih =>
    intro l
    have harith : l + 1 + (rest.length : Int) = l + ((rest.length + 1 : Nat) : Int) := by
      push_cast
      ring
    simp [seqList, seqR, loc_text_run, ih (l + 1), okBind, errorBind, bindAssoc,
      Except.bind, locsEvents, harith, List.append_assoc]

theorem consecutiveNums_eq_range_map (k : Nat) : ∀ l : Int,
    consecutiveNums l k = (List.range k).map fun (j : Nat) => l + (j : Int) := by
  induction k with
  | zero => intro l; rfl
  | succ k ih =>
    intro l
    rw [consecutiveNums, ih (l + 1), List.range_succ_eq_map]
    simp only [List.map_cons, List.map_map, Nat.cast_zero, add_zero, Function.comp]
    congr 1
    apply List.map_congr_left
    intro j _
    simp only [Function.comp_apply, Nat.succ_eq_add_one]
    push_cast
    ring

theorem locGutterAttr_locsEvents_dataL (n : String) (i : Int)
    (texts : List String) : ∀ l : Int,
    locGutterAttr "data-l" (locsEvents n i l texts) =
      (consecutiveNums l texts.length).map toString := by
  induction texts with
  | nil => intro l; rfl
  | cons t rest ih =>
    intro l
    have h1 := (locGutterAttr_startLocEvents n l i).1
    rw [locsEvents, locGutterAttr_append, locGutterAttr_append, h1, ih (l + 1)]
    rfl

theorem locGutterAttr_locsEvents_id (n : String) (i : Int)
    (texts : List String) : ∀ l : Int,
    locGutterAttr "id" (locsEvents n i l texts) =
      (consecutiveNums l texts.length).map (lineId n) := by
  induction texts with
  | nil => intro l; rfl
  | cons t rest ih =>
    intro l
    have h1 := (locGutterAttr_startLocEvents n l i).2.1
    rw [locsEvents, locGutterAttr_append, locGutterAttr_append, h1, ih (l + 1)]
    rfl

/-! ## C4: Pseudocode numbers lines from 1 -/

theorem pseudocode_reset_unfold (p : PseudocodeProps)
    (children : Render) (cfg : Config) (st : RenderState)
    (h : truthy p.noLineNumberReset = false) :
    Pseudocode p children cfg st =
      (children cfg
        { st with pseudo :=
            { lineNumber := 1
              indentation := st.pseudo.indentation
              showLineNumbers :=
                match p.lineNumbering with
                | none => cfg.pseudocode.lineNumbering
                | some b => b
              n := p.n } }).map
        (fun r =>
          (r.1, .openTag "code"
              [("id", p.n),
               ("class", "pseudocode" ++
                 (if (match p.lineNumbering with
                      | none => cfg.pseudocode.lineNumbering
                      | some b => b) then "" else " noLineNumbers"))] ::
            r.2 ++ [.closeTag "code"])) := by
  obtain ⟨n, ln, nr⟩ := p
  obtain ⟨⟨l, i, sh, n0⟩, ⟨rb⟩⟩ := st
  cases nr with
  | some bv =>
    simp only [truthy] at h
    subst h
    cases ln <;>
      simp [Pseudocode, impureR, truthy, PreviewScopeR, seqList, seqR,
        omnomnomR, DefR, emptyR, Code, RenderNonVoidElement,
        RenderGlobalAttributes, elemR, Except.bind, okBind, errorBind,
        bindAssoc] <;>
      exact bindOkEqMap _ _
  | none =>
    cases ln <;>
      simp [Pseudocode, impureR, truthy, PreviewScopeR, seqList, seqR,
        omnomnomR, DefR, emptyR, Code, RenderNonVoidElement,
        RenderGlobalAttributes, elemR, Except.bind, okBind, errorBind,
        bindAssoc] <;>
      exact bindOkEqMap _ _

/-- C4: with `noLineNumberReset` unset or false, `Pseudocode` resets the
`lineNumber` state to 1 before its children render; a block of `k`
plain-text lines is numbered `1, 2, ..., k` in its gutters (so the
first line displays and records line number 1, each `StartLoc`
increments the counter by exactly one, and the recorded line ids are
`lineId n 1, ..., lineId n k`), and the counter ends at `1 + k`. -/
theorem pseudocode_numbers_lines_from_one (cfg : Config) (st : RenderState)
    (p : PseudocodeProps) (texts : List String)
    (h : truthy p.noLineNumberReset = false) :
    (outputOf (Pseudocode p (seqList (texts.map fun t => Loc (textR t)))) cfg st).map
        (locGutterAttr "data-l") =
      .ok ((consecutiveNums 1 texts.length).map toString) ∧
    (outputOf (Pseudocode p (seqList (texts.map fun t => Loc (textR t)))) cfg st).map
        (locGutterAttr "id") =
      .ok ((consecutiveNums 1 texts.length).map (lineId p.n)) ∧
    (Pseudocode p (seqList (texts.map fun t => Loc (textR t))) cfg st).map
        (fun r => r.1.pseudo.lineNumber) =
      .ok (1 + (texts.length : Int)) := by
  obtain ⟨⟨l, i, sh, n0⟩, ⟨rb⟩⟩ := st
  have hu := pseudocode_reset_unfold p (seqList (texts.map fun t => Loc (textR t)))
    cfg ⟨⟨l, i, sh, n0⟩, ⟨rb⟩⟩ h
  have hl := locs_run cfg i
    (match p.lineNumbering with
     | none => cfg.pseudocode.lineNumbering
     | some b => b) p.n rb texts 1
  refine ⟨?_, ?_, ?_⟩
  · simp only [outputOf]
    simp only [hu]
    simp [hl, Except.map, locGutterAttr_append, locGutterAttr,
      locGutterAttr_locsEvents_dataL]
  · simp only [outputOf]
    simp only [hu]
    simp [hl, Except.map, locGutterAttr_append, locGutterAttr,
      locGutterAttr_locsEvents_id]
  · simp only [hu]
    simp [hl, Except.map]

/-- Witness for C4 at a concrete input: a `Pseudocode` block named
`blk` with two plain-text lines numbers them `1` and `2`, records ids
`blkL1` and `blkL2`, and leaves the counter at 3. -/
theorem pseudocode_numbers_lines_from_one_witness :
    (outputOf (Pseudocode ⟨"blk", none, none⟩
        (seqList ((["x", "y"] : List String).map fun t => Loc (textR t)))) {} {}).map
        (locGutterAttr "data-l") = .ok ["1", "2"] ∧
    (outputOf (Pseudocode ⟨"blk", none, none⟩
        (seqList ((["x", "y"] : List String).map fun t => Loc (textR t)))) {} {}).map
        (locGutterAttr "id") = .ok ["blkL1", "blkL2"] ∧
    (Pseudocode ⟨"blk", none, none⟩
        (seqList ((["x", "y"] : List String).map fun t => Loc (textR t))) {} {}).map
        (fun r => r.1.pseudo.lineNumber) = .ok 3 := by
  have h := pseudocode_numbers_lines_from_one {} {} ⟨"blk", none, none⟩
    ["x", "y"] rfl
  exact ⟨h.1.trans (by rfl), h.2.1.trans (by rfl), h.2.2.trans (by rfl)⟩

/-- C6 counterexample: the claim says that after an `Indent` subtree
completes, every field of the pseudocode state holds the value it had
before the `Indent` began.  False at this concrete input: an `Indent`
containing one line of code advances `lineNumber` from 1 to 2. -/
theorem indent_subtree_changes_lineNumber :
    (Indent (Loc (textR "x")) {} { pseudo := { n := "blk" } }).map
        (fun r => r.1.pseudo.lineNumber) = .ok 2 ∧
    ({ pseudo := { n := "blk" } } : RenderState).pseudo.lineNumber = 1 ∧
    (Indent (Loc (textR "x")) {} { pseudo := { n := "blk" } }).map
        (fun r => r.1.pseudo.lineNumber) ≠
      .ok (({ pseudo := { n := "blk" } } : RenderState).pseudo.lineNumber) := by
  refine ⟨rfl, rfl, ?_⟩
  intro hcontra
  have h1 : (Indent (Loc (textR "x")) {} { pseudo := { n := "blk" } }).map
      (fun r => r.1.pseudo.lineNumber) = (.ok 2 : Except Unit Int) := rfl
  rw [h1] at hcontra
  exact absurd (Except.ok.inj hcontra) (by decide)

theorem indentDivCount_append (a b : List Ev) :
    indentDivCount (a ++ b) = indentDivCount a + indentDivCount b := by
  induction a with
  | nil => simp [indentDivCount]
  | cons ev rest ih =>
    cases ev with
    | text s => simp [indentDivCount, ih]
    | openTag name attrs =>
      simp [indentDivCount, ih]
      omega
    | closeTag name => simp [indentDivCount, ih]
    | voidTag name attrs => simp [indentDivCount, ih]

theorem indentDivCount_indents (k : Nat) :
    indentDivCount ((List.replicate k indentEv).flatten) = k := by
  induction k with
  | zero => rfl
  | succ k ih =>
    rw [List.replicate_succ, List.flatten_cons, indentDivCount_append, ih]
    have h1 : indentDivCount indentEv = 1 := rfl
    rw [h1]
    omega

theorem indentDivCount_startLocEvents (n : String) (l i : Int) :
    indentDivCount (startLocEvents n l i) = i.toNat := by
  rw [startLocEvents, indentDivCount_append, indentDivCount_indents]
  have h0 : indentDivCount (gutterEvents n l i) = 0 := rfl
  rw [h0]
  omega

theorem nestIndents_run (cfg : Config) (sh : Bool) (n : String) (rb : Int)
    (t : String) (k : Nat) : ∀ l i : Int,
    nestIndents k (Loc (textR t)) cfg ⟨⟨l, i, sh, n⟩, ⟨rb⟩⟩ =
      .ok (⟨⟨l + 1, i, sh, n⟩, ⟨rb⟩⟩,
        startLocEvents n l (i + (k : Int)) ++ [.text t, .text "</div>"]) := by
  induction k with
  | zero =>
    intro l i
    simpa using loc_text_run cfg l i sh n rb t
  | succ k ih =>
    intro l i
    have e1 : i + 1 - 1 = i := by ring
    have e2 : i + 1 + (k : Int) = i + ((k : Int) + 1) := by ring
    show Indent (nestIndents k (Loc (textR t))) cfg _ = _
    simp [Indent, lifecycleR, ih l (i + 1), okBind, errorBind, Except.bind,
      e1, e2, Nat.cast_add, Nat.cast_one]

/-- C6 amended: `Indent` increments the indentation counter by exactly
1 before its children and decrements it by exactly 1 after them, so a
line begun inside exactly `k` enclosing `Indent` macros (at top-level
indentation 0) renders exactly `k` indent divs and carries data
attribute `i` equal to `k`; after the `Indent` nesting completes the
`indentation` field is restored (and so is every other field except
`lineNumber`, which keeps the advance made by the line inside). -/
theorem indent_nesting_scopes_indentation (cfg : Config) (k : Nat) (l : Int)
    (sh : Bool) (nm : String) (rb : Int) (t : String) :
    nestIndents k (Loc (textR t)) cfg ⟨⟨l, 0, sh, nm⟩, ⟨rb⟩⟩ =
      .ok (⟨⟨l + 1, 0, sh, nm⟩, ⟨rb⟩⟩,
        startLocEvents nm l (k : Int) ++ [.text t, .text "</div>"]) ∧
    locGutterAttr "data-i" (startLocEvents nm l (k : Int) ++
        [.text t, .text "</div>"]) = [toString (k : Int)] ∧
    indentDivCount (startLocEvents nm l (k : Int) ++
        [.text t, .text "</div>"]) = k := by
  refine ⟨?_, ?_, ?_⟩
  · simpa using nestIndents_run cfg sh nm rb t k l 0
  · rw [locGutterAttr_append, (locGutterAttr_startLocEvents nm l (k : Int)).2.2]
    rfl
  · rw [indentDivCount_append, indentDivCount_startLocEvents]
    have h0 : indentDivCount [Ev.text t, Ev.text "</div>"] = 0 := rfl
    rw [h0]
    simp

theorem vffItem_valid (it : LinesItem) (h : itemInvalid it = false) :
    vffItem it = .ok (itemFirst it) := by
  cases it with
  | num n => rfl
  | range lo hi =>
    simp only [itemInvalid, decide_eq_false_iff_not, not_lt] at h
    simp [vffItem, itemFirst, not_lt.mpr h]

theorem vffItem_invalid (it : LinesItem) (h : itemInvalid it = true) :
    vffItem it = .error () := by
  cases it with
  | num n => simp [itemInvalid] at h
  | range lo hi =>
    simp only [itemInvalid, decide_eq_true_eq] at h
    simp [vffItem, h]

theorem foldl_min_itemMentioned (it : LinesItem) (h : itemInvalid it = false)
    (a : Int) : List.foldl min a (itemMentioned it) = min a (itemFirst it) := by
  cases it with
  | num n => rfl
  | range lo hi =>
    simp only [itemInvalid, decide_eq_false_iff_not, not_lt] at h
    simp only [itemMentioned, itemFirst, List.foldl_cons, List.foldl_nil]
    exact min_eq_left ((min_le_right a lo).trans h)

theorem vffMany_valid (items : List LinesItem)
    (h : ∀ it ∈ items, itemInvalid it = false) : ∀ a : Int,
    vffMany items (some a) =
      .ok (List.foldl min a ((items.map itemMentioned).flatten)) := by
  induction items with
  | nil => intro a; rfl
  | cons it rest ih =>
    intro a
    have hit := h it (List.mem_cons_self it rest)
    have hrest : ∀ x ∈ rest, itemInvalid x = false :=
      fun x hx => h x (List.mem_cons_of_mem it hx)
    rw [vffMany, vffItem_valid it hit]
    show vffMany rest (some (optMin (some a) (itemFirst it))) = _
    rw [show optMin (some a) (itemFirst it) = min a (itemFirst it) from rfl]
    rw [ih hrest (min a (itemFirst it))]
    rw [List.map_cons, List.flatten_cons, List.foldl_append,
      foldl_min_itemMentioned it hit]

theorem vffMany_invalid (items : List LinesItem)
    (h : items.any itemInvalid = true) : ∀ acc : Option Int,
    vffMany items acc = .error () := by
  induction items with
  | nil => simp at h
  | cons it rest ih =>
    intro acc
    cases hit : itemInvalid it with
    | true => rw [vffMany, vffItem_invalid it hit]; rfl
    | false =>
      have hrest : rest.any itemInvalid = true := by
        simp only [List.any_cons, hit, Bool.false_or] at h
        exact h
      rw [vffMany, vffItem_valid it hit]
      exact ih hrest _

theorem linesValidateAndFindFirst_invalid (l : Lines)
    (h : linesInvalid l = true) :
    linesValidateAndFindFirst l = .error () := by
  cases l with
  | num n => simp [linesInvalid] at h
  | range lo hi =>
    simp only [linesInvalid, decide_eq_true_eq] at h
    simp [linesValidateAndFindFirst, h]
  | many items =>
    simp only [linesInvalid, Bool.or_eq_true] at h
    rcases h with h | h
    · simp [linesValidateAndFindFirst, h]
    · cases he : items.isEmpty with
      | true => simp [linesValidateAndFindFirst, he]
      | false =>
        rw [linesValidateAndFindFirst, he]
        simp only [Bool.false_eq_true, if_false]
        exact vffMany_invalid items h none

theorem linesValidateAndFindFirst_valid (l : Lines)
    (h : linesInvalid l = false) :
    linesValidateAndFindFirst l = .ok (minMentioned l) := by
  cases l with
  | num n => rfl
  | range lo hi =>
    simp only [linesInvalid, decide_eq_false_iff_not, not_lt] at h
    rw [linesValidateAndFindFirst, if_neg (not_lt.mpr h)]
    simp only [minMentioned, mentionedLines, List.foldl_cons, List.foldl_nil]
    rw [min_eq_left h]
  | many items =>
    simp only [linesInvalid, Bool.or_eq_false_iff] at h
    obtain ⟨hne, hall⟩ := h
    have hvalid : ∀ it ∈ items, itemInvalid it = false := by
      intro it hit
      by_contra hcon
      have : items.any itemInvalid = true :=
        List.any_eq_true.mpr ⟨it, hit, by simpa using hcon⟩
      rw [this] at hall
      exact Bool.true_eq_false.mp hall
    cases items with
    | nil => simp [List.isEmpty] at hne
    | cons it rest =>
      rw [linesValidateAndFindFirst, if_neg (by simp [hne])]
      have hit := hvalid it (List.mem_cons_self it rest)
      have hrest : ∀ x ∈ rest, itemInvalid x = false :=
        fun x hx => hvalid x (List.mem_cons_of_mem it hx)
      rw [vffMany, vffItem_valid it hit]
      show vffMany rest (some (optMin none (itemFirst it))) = _
      rw [show optMin none (itemFirst it) = itemFirst it from rfl]
      rw [vffMany_valid rest hrest (itemFirst it)]
      congr 1
      cases hitem : it with
      | num m =>
        simp [minMentioned, mentionedLines, itemMentioned, itemFirst]
      | range lo hi =>
        have hle : lo ≤ hi := by
          have := hvalid it (List.mem_cons_self it rest)
          rw [hitem] at this
          simpa [itemInvalid, not_lt] using this
        simp only [minMentioned, mentionedLines, List.map_cons, itemMentioned,
          List.flatten_cons, itemFirst, List.cons_append, List.foldl_cons]
        rw [min_eq_left hle]
        simp

/-- C5: `RefLoc` halts with a diagnostic if and only if its `lines`
prop is invalid (it contains a range `[a, b]` with `a > b`, or is an
empty many-list); on every valid `lines` value it renders a reference
whose replacement id is the block name followed by `L` followed by the
minimum line number mentioned anywhere in the value. -/
theorem refLoc_halts_iff_invalid (cfg : Config) (st : RenderState)
    (p : RefLocProps) (t : String) :
    halts (RefLoc p (textR t)) cfg st = linesInvalid p.lines ∧
    (linesInvalid p.lines = false →
      RefLoc p (textR t) cfg st = .ok (st,
        [.openTag "R" [("n", p.n),
           ("replacementId", lineId p.n (minMentioned p.lines)),
           ("query-hlLines", encodeLines p.lines),
           ("query-hlPseudocode", p.n),
           ("data-hllines", encodeLines p.lines)],
         .text t, .closeTag "R"])) := by
  cases hinv : linesInvalid p.lines with
  | true =>
    refine ⟨?_, fun hcon => absurd hcon (by decide)⟩
    rw [halts, RefLoc, impureR]
    rw [show linesValidateAndFindFirst p.lines = .error () from
      linesValidateAndFindFirst_invalid p.lines hinv]
    rfl
  | false =>
    have hok := linesValidateAndFindFirst_valid p.lines hinv
    constructor
    · rw [halts, RefLoc, impureR, hok]
      rfl
    · intro _
      rw [RefLoc, impureR, hok]
      rfl

/-- Witness for C5 at a concrete input: `lines = many [3, [2, 5]]` is
valid; the reference does not halt and its replacement id is `pcL2`
(the minimum mentioned line is 2), with the lines encoded as `3a2b5`. -/
theorem refLoc_halts_iff_invalid_witness :
    halts (RefLoc { n := "pc", lines := .many [.num 3, .range 2 5] }
      (textR "ref")) {} {} = false ∧
    RefLoc { n := "pc", lines := .many [.num 3, .range 2 5] } (textR "ref") {} {} =
      .ok ({}, [.openTag "R" [("n", "pc"), ("replacementId", "pcL2"),
          ("query-hlLines", "3a2b5"), ("query-hlPseudocode", "pc"),
          ("data-hllines", "3a2b5")],
        .text "ref", .closeTag "R"]) := by
  have h := refLoc_halts_iff_invalid {} {}
    { n := "pc", lines := .many [.num 3, .range 2 5] } "ref"
  exact ⟨h.1.trans (by rfl), (h.2 (by rfl)).trans (by rfl)⟩

theorem spanClasses_append (a b : List Ev) :
    spanClasses (a ++ b) = spanClasses a ++ spanClasses b := by
  induction a with
  | nil => rfl
  | cons ev rest ih => cases ev <;> simp [spanClasses, ih, List.append_assoc]

theorem spanClasses_indents (k : Nat) :
    spanClasses ((List.replicate k indentEv).flatten) = [] := by
  induction k with
  | zero => rfl
  | succ k ih =>
    rw [List.replicate_succ, List.flatten_cons, spanClasses_append, ih]
    rfl

theorem spanClasses_startLocEvents (n : String) (l i : Int) :
    spanClasses (startLocEvents n l i) = [] := by
  rw [startLocEvents, spanClasses_append, spanClasses_indents]
  rfl

theorem seqR_run {a b : Render} {cfg : Config} {st st1 st2 : RenderState}
    {o1 o2 : List Ev} (ha : a cfg st = .ok (st1, o1))
    (hb : b cfg st1 = .ok (st2, o2)) :
    seqR a b cfg st = .ok (st2, o1 ++ o2) := by
  simp [seqR, ha, hb, Except.bind, okBind]

theorem spanR_run {ch : Render} {cfg : Config} {st st1 : RenderState}
    {o : List Ev} (cl : List String) (h : ch cfg st = .ok (st1, o)) :
    SpanR cl ch cfg st =
      .ok (st1, .openTag "span" (cl.map fun c => ("class", c)) :: o ++
        [.closeTag "span"]) := by
  simp [SpanR, elemR, h, Except.bind, okBind]

theorem filterMap_class_map (cl : List String) :
    (cl.map (fun c => (("class", c) : String × String))).filterMap
      (fun a => if a.1 = "class" then some a.2 else none) = cl := by
  induction cl with
  | nil => rfl
  | cons c rest ih => simp [ih]

theorem spanClasses_span_out (cl : List String) (o : List Ev) :
    spanClasses (Ev.openTag "span" (cl.map fun c => ("class", c)) :: o ++
        [Ev.closeTag "span"]) =
      cl ++ spanClasses o := by
  simp only [spanClasses, List.append_eq]
  rw [if_pos trivial, filterMap_class_map, spanClasses_append]
  simp [spanClasses]

theorem safe_textR (s : String) : SafeRender (textR s) := by
  intro cfg st
  exact ⟨st, [.text s], rfl, by intro c hc; simp [spanClasses] at hc⟩

theorem safe_emptyR : SafeRender emptyR := by
  intro cfg st
  exact ⟨st, [], rfl, by intro c hc; simp [spanClasses] at hc⟩

theorem safe_seqR {a b : Render} (ha : SafeRender a) (hb : SafeRender b) :
    SafeRender (seqR a b) := by
  intro cfg st
  obtain ⟨st1, o1, hr1, hc1⟩ := ha cfg st
  obtain ⟨st2, o2, hr2, hc2⟩ := hb cfg st1
  refine ⟨st2, o1 ++ o2, seqR_run hr1 hr2, ?_⟩
  intro c hc
  rw [spanClasses_append] at hc
  rcases List.mem_append.mp hc with h | h
  · exact hc1 c h
  · exact hc2 c h

theorem safe_seqList (rs : List Render) (h : ∀ r ∈ rs, SafeRender r) :
    SafeRender (seqList rs) := by
  induction rs with
  | nil => exact safe_emptyR
  | cons r rest ih =>
    exact safe_seqR (h r (List.mem_cons_self r rest))
      (ih fun x hx => h x (List.mem_cons_of_mem r hx))

theorem safe_Deemph {ch : Render} (h : SafeRender ch) :
    SafeRender (Deemph ch) := by
  intro cfg st
  obtain ⟨st1, o, hr, hc⟩ := h cfg st
  refine ⟨st1, _, spanR_run ["deemph"] hr, ?_⟩
  intro c hcm
  rw [spanClasses_span_out] at hcm
  rcases List.mem_append.mp hcm with hm | hm
  · simpa using hm
  · exact hc c hm

theorem safe_StartLoc : SafeRender StartLoc := by
  intro cfg st
  obtain ⟨⟨l, i, sh, n⟩, ⟨rb⟩⟩ := st
  refine ⟨_, _, startLoc_run cfg l i sh n rb, ?_⟩
  intro c hc
  rw [spanClasses_startLocEvents] at hc
  exact absurd hc (List.not_mem_nil c)

theorem safe_EndLoc : SafeRender EndLoc := safe_textR "</div>"

theorem safe_Loc {ch : Render} (h : SafeRender ch) : SafeRender (Loc ch) := by
  refine safe_seqList _ ?_
  intro r hr
  simp only [List.mem_cons, List.not_mem_nil, or_false] at hr
  rcases hr with rfl | rfl | rfl
  exacts [safe_StartLoc, h, safe_EndLoc]

theorem safe_SpliceLoc {ch : Render} (h : SafeRender ch) :
    SafeRender (SpliceLoc ch) := by
  refine safe_seqList _ ?_
  intro r hr
  simp only [List.mem_cons, List.not_mem_nil, or_false] at hr
  rcases hr with rfl | rfl | rfl
  exacts [safe_EndLoc, h, safe_StartLoc]

theorem safe_Indent {ch : Render} (h : SafeRender ch) :
    SafeRender (Indent ch) := by
  intro cfg st
  obtain ⟨st1, o, hr, hc⟩ := h cfg
    { st with pseudo := { st.pseudo with
        indentation := st.pseudo.indentation + 1 } }
  refine ⟨{ st1 with pseudo := { st1.pseudo with
      indentation := st1.pseudo.indentation - 1 } }, o, ?_, hc⟩
  simp [Indent, lifecycleR, hr, Except.bind, okBind]

theorem safe_sepSlot (multiline rubyNonMulti isLast : Bool)
    (sep0 : Option String) {e : Render} (he : SafeRender e) :
    SafeRender (sepSlot multiline rubyNonMulti (sep0.map textR) isLast e) := by
  cases sep0 with
  | none =>
    rw [show (Option.map textR none) = none from rfl, sepSlot]
    cases rubyNonMulti with
    | true => simpa using safe_seqR he (safe_textR " ")
    | false => simpa using he
  | some s =>
    rw [show (Option.map textR (some s)) = some (textR s) from rfl, sepSlot]
    cases hml : (multiline || !isLast) with
    | true =>
      rw [if_pos rfl]
      refine safe_seqList _ ?_
      intro r hr
      simp only [List.mem_cons, List.not_mem_nil, or_false] at hr
      rcases hr with rfl | rfl | rfl
      exacts [he, safe_Deemph (safe_textR s), safe_textR _]
    | false =>
      rw [if_neg (by decide)]
      cases rubyNonMulti with
      | true => simpa using safe_seqR he (safe_textR " ")
      | false => simpa using he

theorem safe_separatedContent (multiline rubyNonMulti : Bool)
    (sep0 : Option String) (rs : List Render) (h : ∀ r ∈ rs, SafeRender r) :
    ∀ r' ∈ separatedContent multiline rubyNonMulti (sep0.map textR) rs,
      SafeRender r' := by
  induction rs with
  | nil => intro r' hr'; simp [separatedContent] at hr'
  | cons e rest ih =>
    cases rest with
    | nil =>
      intro r' hr'
      rw [show separatedContent multiline rubyNonMulti (Option.map textR sep0) [e] =
        [sepSlot multiline rubyNonMulti (Option.map textR sep0) true e] from rfl] at hr'
      simp only [List.mem_singleton] at hr'
      subst hr'
      exact safe_sepSlot multiline rubyNonMulti true sep0
        (h e (List.mem_cons_self e []))
    | cons f rs' =>
      intro r' hr'
      rw [show separatedContent multiline rubyNonMulti (Option.map textR sep0)
          (e :: f :: rs') =
        sepSlot multiline rubyNonMulti (Option.map textR sep0) false e ::
          separatedContent multiline rubyNonMulti (Option.map textR sep0)
            (f :: rs') from rfl] at hr'
      simp only [List.mem_cons] at hr'
      rcases hr' with rfl | hmem
      · exact safe_sepSlot multiline rubyNonMulti false sep0
          (h e (List.mem_cons_self e (f :: rs')))
      · exact ih (fun x hx => h x (List.mem_cons_of_mem e hx)) r' hmem

theorem delimiters_renders_open_close (d1 d2 children : Render)
    (nr : Option Bool) (hd1 : SafeRender d1) (hd2 : SafeRender d2)
    (hch : SafeRender children) (cfg : Config) (st : RenderState) :
    ∃ st' out,
      Delimiters { delims := (d1, d2), noRainbow := nr } children cfg st =
        .ok (st', out) ∧
      hasSpanClass "open" out = true ∧ hasSpanClass "close" out = true := by
  cases hnr : truthy nr with
  | true =>
    obtain ⟨s1, o1, h1, _⟩ := hd1 cfg st
    obtain ⟨s2, o2, h2, _⟩ := hch cfg s1
    obtain ⟨s3, o3, h3, _⟩ := hd2 cfg s2
    have hs1 := spanR_run ["open"] h1
    have hs3 := spanR_run ["close"] h3
    refine ⟨s3,
      (Ev.openTag "span" [("class", "open")] :: o1 ++ [Ev.closeTag "span"]) ++
        (o2 ++ ((Ev.openTag "span" [("class", "close")] :: o3 ++
          [Ev.closeTag "span"]) ++ [])), ?_, ?_, ?_⟩
    · simp only [Delimiters, hnr, if_true]
      simp [seqList, seqR, hs1, h2, hs3, emptyR, Except.bind, okBind,
        List.append_assoc]
    · simp [hasSpanClass, spanClasses_append, spanClasses]
    · simp [hasSpanClass, spanClasses_append, spanClasses]
  | false =>
    obtain ⟨s1, o1, h1, _⟩ := hd1 cfg
      { st with strc := { st.strc with
          rainbowCount := jsRem (st.strc.rainbowCount + 1)
            cfg.structuredcode.colorsOfTheRainbow } }
    obtain ⟨s2, o2, h2, _⟩ := hch cfg s1
    obtain ⟨s3, o3, h3, _⟩ := hd2 cfg s2
    have hs1 := spanR_run
      ["rb" ++ toString (jsRem (st.strc.rainbowCount + 1)
        cfg.structuredcode.colorsOfTheRainbow), "open"] h1
    have hs3 := spanR_run
      ["rb" ++ toString (jsRem (st.strc.rainbowCount + 1)
        cfg.structuredcode.colorsOfTheRainbow), "close"] h3
    refine ⟨{ s3 with strc := { s3.strc with
        rainbowCount := jsRem (s3.strc.rainbowCount - 1)
          cfg.structuredcode.colorsOfTheRainbow } },
      (Ev.openTag "span" [("class", "rb" ++ toString (jsRem (st.strc.rainbowCount + 1)
          cfg.structuredcode.colorsOfTheRainbow)), ("class", "open")] ::
        o1 ++ [Ev.closeTag "span"]) ++
        (o2 ++ ((Ev.openTag "span" [("class", "rb" ++ toString (jsRem (st.strc.rainbowCount + 1)
          cfg.structuredcode.colorsOfTheRainbow)), ("class", "close")] ::
          o3 ++ [Ev.closeTag "span"]) ++ [])), ?_, ?_, ?_⟩
    · simp only [Delimiters, hnr, Bool.false_eq_true, if_false]
      simp [lifecycleR, impureR, seqList, seqR, hs1, h2, hs3, emptyR,
        Except.bind, okBind, List.append_assoc]
    · simp [hasSpanClass, spanClasses_append, spanClasses]
    · simp [hasSpanClass, spanClasses_append, spanClasses]

/-- C9: `Delimited` omits its delimiters if and only if all three hold:
its `multiline` prop is truthy, the configured `delimiterStyle` is
`python`, and its `pythonSkip` prop is truthy.  In every other case
(in particular for a non-multiline `Delimited` with `pythonSkip` under
python style) both the opening and the closing delimiter are rendered:
the output contains spans of class `open` and `close` exactly when the
delimiters are not omitted, while plain-text content and separators
never produce such spans. -/
theorem delimited_omits_delimiters_iff (cfg : Config) (st : RenderState)
    (texts : List String) (sep0 : Option String) (od cd : String)
    (ruby0 : Option (String × String))
    (multiline pythonSkip noRainbow : Option Bool) :
    ∃ st' out,
      Delimited
        { content := texts.map textR, multiline := multiline,
          separator := sep0.map textR, c := (textR od, textR cd),
          pythonSkip := pythonSkip,
          ruby := ruby0.map (fun rp => (textR rp.1, textR rp.2)),
          noRainbow := noRainbow } cfg st = .ok (st', out) ∧
      hasSpanClass "open" out =
        !(truthy multiline &&
          (cfg.structuredcode.delimiterStyle == DelimiterStyle.python) &&
          truthy pythonSkip) ∧
      hasSpanClass "close" out =
        !(truthy multiline &&
          (cfg.structuredcode.delimiterStyle == DelimiterStyle.python) &&
          truthy pythonSkip) := by
  have hcontent : ∀ r ∈ texts.map textR, SafeRender r := by
    intro r hr
    obtain ⟨t, _, rfl⟩ := List.mem_map.mp hr
    exact safe_textR t
  have hbetween : ∀ (m rn : Bool),
      SafeRender (if m then
        SpliceLoc (Indent (seqList
          ((separatedContent m rn (sep0.map textR) (texts.map textR)).map Loc)))
      else seqList (separatedContent m rn (sep0.map textR) (texts.map textR))) := by
    intro m rn
    cases m with
    | false =>
      simpa using safe_seqList _
        (safe_separatedContent false rn sep0 (texts.map textR) hcontent)
    | true =>
      simp only [if_true]
      refine safe_SpliceLoc (safe_Indent (safe_seqList _ ?_))
      intro r hr
      obtain ⟨x, hx, rfl⟩ := List.mem_map.mp hr
      exact safe_Loc
        (safe_separatedContent true rn sep0 (texts.map textR) hcontent x hx)
  simp only [Delimited, impureR, okBind]
  cases hnd : (truthy multiline &&
      (cfg.structuredcode.delimiterStyle == DelimiterStyle.python) &&
      truthy pythonSkip) with
  | true =>
    obtain ⟨⟨hm, _⟩, _⟩ :
        (truthy multiline = true ∧
          (cfg.structuredcode.delimiterStyle == DelimiterStyle.python) = true) ∧
          truthy pythonSkip = true := by
      simpa [Bool.and_eq_true] using hnd
    rw [if_pos rfl, hm, if_pos rfl]
    simp only [Bool.not_true]
    obtain ⟨st', out, hrun, hde⟩ := hbetween true
      (!true && (cfg.structuredcode.delimiterStyle == DelimiterStyle.ruby) &&
        (ruby0.map (fun rp => (textR rp.1, textR rp.2))).isSome) cfg st
    rw [if_pos rfl] at hrun
    refine ⟨st', out, hrun, ?_, ?_⟩
    · simp only [hasSpanClass, decide_eq_false_iff_not]
      intro hmem
      exact absurd (hde _ hmem) (by decide)
    · simp only [hasSpanClass, decide_eq_false_iff_not]
      intro hmem
      exact absurd (hde _ hmem) (by decide)
  | false =>
    rw [if_neg (by decide)]
    simp only [Bool.not_false]
    have hopen : SafeRender
        (if cfg.structuredcode.delimiterStyle == DelimiterStyle.ruby then
          match ruby0.map (fun rp => (textR rp.1, textR rp.2)) with
          | some rp => if truthy multiline then rp.1 else seqR rp.1 (textR " ")
          | none => textR od
        else textR od) := by
      cases cfg.structuredcode.delimiterStyle == DelimiterStyle.ruby with
      | false => simpa using safe_textR od
      | true =>
        cases ruby0 with
        | none => simpa using safe_textR od
        | some rp =>
          simp only [Option.map_some, if_true]
          cases truthy multiline with
          | true => simpa using safe_textR rp.1
          | false => simpa using safe_seqR (safe_textR rp.1) (safe_textR " ")
    have hclose : SafeRender
        (if cfg.structuredcode.delimiterStyle == DelimiterStyle.ruby then
          match ruby0.map (fun rp => (textR rp.1, textR rp.2)) with
          | some rp => rp.2
          | none => textR cd
        else textR cd) := by
      cases cfg.structuredcode.delimiterStyle == DelimiterStyle.ruby with
      | false => simpa using safe_textR cd
      | true =>
        cases ruby0 with
        | none => simpa using safe_textR cd
        | some rp => simpa using safe_textR rp.2
    obtain ⟨st', out, hrun, ho, hc⟩ := delimiters_renders_open_close _ _ _
      noRainbow hopen hclose
      (hbetween (truthy multiline)
        (!truthy multiline &&
          (cfg.structuredcode.delimiterStyle == DelimiterStyle.ruby) &&
          (ruby0.map (fun rp => (textR rp.1, textR rp.2))).isSome)) cfg st
    exact ⟨st', out, hrun, ho, hc⟩
